import Mathlib

/-!
Verification of the polymarket-alert-system core against its specification.

The JavaScript sources are shallowly embedded: JS numbers that carry prices,
sizes and currency amounts are modelled as rationals (`ℚ`); timestamps in
milliseconds as integers (`ℤ`); a numeric field whose `Number(...)` conversion
may be non-finite is modelled as `Option ℚ` with `none` standing for the
non-finite outcome; fallible operations return `Option`.  The real-valued
scoring heuristic, which uses `Math.log10`, is embedded over `ℝ` with
`Real.logb 10`.  JS `Array.prototype.sort` is stable, so it is modelled with
the stable `List.insertionSort`.
-/

namespace PolymarketAlert

/-! ## Order books (src/utils.js) -/

/-- A raw order-book level as delivered by the remote book endpoint.
`none` models a `price`/`size` whose `Number(...)` conversion is not finite. -/
structure RawLevel where
  price : Option ℚ
  size : Option ℚ
deriving DecidableEq

/-- An order book for one token: unordered bid and ask levels. -/
structure Book where
  bids : List RawLevel
  asks : List RawLevel
deriving DecidableEq

/-- Side of a simulated market order: `buy` consumes asks, `sell` consumes bids. -/
inductive Side where
  | buy
  | sell
deriving DecidableEq

/-- One step of the best-price folds in `bestBidAsk` (src/utils.js lines 28-39):
a level with a non-finite price is skipped, otherwise the accumulator is
replaced when `better p acc` holds.  The source does not drop non-positive
prices here. -/
def bestLevelStep (better : ℚ → ℚ → Bool) (acc : Option ℚ) (l : RawLevel) : Option ℚ :=
  match l.price with
  | none => acc
  | some p =>
    match acc with
    | none => some p
    | some b => if better p b then some p else acc

/-- `bestBidAsk` (src/utils.js lines 23-42): best bid is the maximum finite bid
price, best ask the minimum finite ask price; `none` when no finite price
exists on that side. -/
def bestBidAsk (book : Book) : Option ℚ × Option ℚ :=
  (book.bids.foldl (bestLevelStep fun p b => decide (b < p)) none,
   book.asks.foldl (bestLevelStep fun p a => decide (p < a)) none)

/-- A parsed order-book level with finite price and size. -/
structure Level where
  price : ℚ
  size : ℚ
deriving DecidableEq

/-- The `.map` step of `sortedLevels` (src/utils.js line 47): a level both of
whose fields convert to finite numbers. -/
def toNumLevel (l : RawLevel) : Option Level :=
  match l.price, l.size with
  | some p, some s => some ⟨p, s⟩
  | _, _ => none

/-- `sortedLevels` (src/utils.js lines 44-50): pick the side's raw levels, keep
finite strictly positive price/size, and stable-sort best price first
(ascending for `buy`, descending for `sell`). -/
def sortedLevels (book : Book) (side : Side) : List Level :=
  let raw := match side with | .buy => book.asks | .sell => book.bids
  let filtered := (raw.filterMap toNumLevel).filter fun l =>
    decide (0 < l.price ∧ 0 < l.size)
  match side with
  | .buy => List.insertionSort (fun a b => a.price ≤ b.price) filtered
  | .sell => List.insertionSort (fun a b => b.price ≤ a.price) filtered

/-- Accumulated result of the level walk inside `marketFill`
(src/utils.js lines 56-70).  `consumed` records the price of every level the
loop visited, in order. -/
structure WalkResult where
  remaining : ℚ
  shares : ℚ
  cost : ℚ
  consumed : List ℚ
deriving DecidableEq

/-- The level walk of `marketFill` (src/utils.js lines 60-70): consume up to
the remaining notional from each level, breaking once the remaining notional
drops to at most `1e-9`. -/
def fillWalk (remaining : ℚ) : List Level → WalkResult
  | [] => ⟨remaining, 0, 0, []⟩
  | lvl :: rest =>
    let lvlUsd := lvl.price * lvl.size
    let takeUsd := min remaining lvlUsd
    let takeShares := takeUsd / lvl.price
    let rem := remaining - takeUsd
    if rem ≤ 1 / 1000000000 then ⟨rem, takeShares, takeUsd, [lvl.price]⟩
    else
      let w := fillWalk rem rest
      ⟨w.remaining, takeShares + w.shares, takeUsd + w.cost, lvl.price :: w.consumed⟩

/-- A successful simulated fill (src/utils.js line 75). -/
structure Fill where
  avgPrice : ℚ
  shares : ℚ
  notional : ℚ
deriving DecidableEq

/-- `marketFill` (src/utils.js lines 52-76): walk the sorted levels and reject
the fill when nothing was consumed or more than `1e-6` notional is left over. -/
def marketFill (book : Book) (side : Side) (notionalUsd : ℚ) : Option Fill :=
  let w := fillWalk notionalUsd (sortedLevels book side)
  if w.cost ≤ 0 ∨ w.shares ≤ 0 ∨ 1 / 1000000 < w.remaining then none
  else some ⟨w.cost / w.shares, w.shares, w.cost⟩

/-- Result of `slippageForNotional` (src/scan.js line 126). -/
structure SlipResult where
  avgPrice : ℚ
  refPrice : ℚ
  slippage : ℚ
  shares : ℚ
deriving DecidableEq

/-- `slippageForNotional` (src/scan.js lines 98-127): same walk as
`marketFill`, then the absolute distance from the side's best quote; the JS
falsy test `if (!ref) return null` also rejects a zero reference price. -/
def slippageForNotional (book : Book) (side : Side) (notionalUsd : ℚ) : Option SlipResult :=
  let w := fillWalk notionalUsd (sortedLevels book side)
  if w.cost ≤ 0 ∨ w.shares ≤ 0 ∨ 1 / 1000000 < w.remaining then none
  else
    let avg := w.cost / w.shares
    let refOpt := match side with | .buy => (bestBidAsk book).2 | .sell => (bestBidAsk book).1
    match refOpt with
    | none => none
    | some ref => if ref = 0 then none else some ⟨avg, ref, |avg - ref|, w.shares⟩

/-! ## Scoring model (src/scan.js lines 129-148) -/

/-- `clamp01` (src/scan.js line 132). -/
noncomputable def clamp01 (x : ℝ) : ℝ := max 0 (min 1 x)

/-- `opportunityScore` (src/scan.js lines 129-148): weighted linear combination
of clamped sub-scores, clamped to `[0,100]` and rounded (JS `Math.round` is
`⌊x + 1/2⌋`, which is Mathlib's `round`).  The two slippage arguments are
optional, defaulted to `0` as in `(slipBuy ?? 0)`. -/
noncomputable def opportunityScore (spread vol24h liq absMove1h : ℝ)
    (slipBuy slipSell : Option ℝ) : ℤ :=
  let volScore := clamp01 (Real.logb 10 (1 + vol24h) / 5)
  let liqScore := clamp01 (Real.logb 10 (1 + liq) / 5)
  let moveScore := clamp01 (absMove1h / (8 / 100))
  let spreadPenalty := clamp01 (spread / (2 / 100))
  let slipPenalty := clamp01 ((slipBuy.getD 0 + slipSell.getD 0) / (4 / 100))
  let raw := 45 * volScore + 25 * liqScore + 30 * moveScore
    - 25 * spreadPenalty - 25 * slipPenalty
  round (max 0 (min 100 raw))

/-! ## Market records and eligibility filters (src/scan.js, src/engine.js) -/

/-- A market record from the remote catalog, after the JSON-string fields have
been run through `safeParseJsonArray`/`Number`/`Date.parse`.  `endDate none`
models an end date whose `Date.parse` is not finite; `acceptingOrders none`
models an absent field (JS `undefined`, for which `!== false` holds). -/
structure Market where
  id : String
  slug : String
  question : String
  closed : Bool
  enableOrderBook : Bool
  acceptingOrders : Option Bool
  volume24hr : Option ℚ
  liquidityNum : Option ℚ
  liquidity : Option ℚ
  endDate : Option ℤ
  outcomes : List String
  outcomePrices : List (Option ℚ)
  clobTokenIds : List String
deriving DecidableEq

/-- Eligibility filter of the single-shot scan (src/scan.js lines 171-179):
not closed, order book enabled, volume and liquidity floors, and a finite end
date strictly inside `(now, endCutoffMs)`. -/
def mainEligible (now endCutoffMs : ℤ) (minVolume24h minLiquidity : ℚ)
    (m : Market) : Bool :=
  (!m.closed) && m.enableOrderBook &&
  decide (minVolume24h ≤ m.volume24hr.getD 0) &&
  decide (minLiquidity ≤ m.liquidityNum.getD (m.liquidity.getD 0)) &&
  (match m.endDate with
   | some e => decide (now < e) && decide (e < endCutoffMs)
   | none => false)

/-- Candidate list of the single-shot scan (src/scan.js lines 171-180):
filter, then keep at most 30 markets. -/
def mainCandidates (markets : List Market) (now endCutoffMs : ℤ)
    (minVolume24h minLiquidity : ℚ) : List Market :=
  (markets.filter (mainEligible now endCutoffMs minVolume24h minLiquidity)).take 30

/-- Eligibility filter of the live-monitoring scan (src/engine.js
`findOpportunity`, src/scan.js lines 336-345): not closed, order book enabled,
order acceptance not explicitly disabled, volume and liquidity floors, exactly
two outcomes.  There is no end-date predicate in this variant. -/
def liveEligible (minVolume24h minLiquidity : ℚ) (m : Market) : Bool :=
  (!m.closed) && m.enableOrderBook &&
  decide (m.acceptingOrders ≠ some false) &&
  decide (minVolume24h ≤ m.volume24hr.getD 0) &&
  decide (minLiquidity ≤ m.liquidityNum.getD (m.liquidity.getD 0)) &&
  (m.outcomes.length == 2)

/-- Candidate list of the live-monitoring scan (src/scan.js lines 336-346):
filter, then keep at most 40 markets. -/
def liveCandidates (minVolume24h minLiquidity : ℚ) (markets : List Market) :
    List Market :=
  (markets.filter (liveEligible minVolume24h minLiquidity)).take 40

/-- The order-book fetches the live-monitoring scan issues (src/scan.js lines
350-363): for every candidate with at least two token ids, the first two token
ids, in order. -/
def liveFetchTokens (minVolume24h minLiquidity : ℚ) (markets : List Market) :
    List String :=
  (liveCandidates minVolume24h minLiquidity markets).flatMap fun m =>
    if m.clobTokenIds.length < 2 then []
    else [m.clobTokenIds.getD 0 "", m.clobTokenIds.getD 1 ""]

/-! ## Snapshot store -/

/-- A per-token snapshot entry (src/state.js, src/scan.js line 268). -/
structure SnapEntry where
  mid : ℚ
  bid : ℚ
  ask : ℚ
  t : ℤ
deriving DecidableEq

/-- The snapshot store's `byToken` object, modelled as an association list in
which the most recent write for a key shadows older ones. -/
abbrev SnapMap := List (String × SnapEntry)

/-- JS object assignment `byToken[tokenId] = entry`: last write wins. -/
def snapInsert (m : SnapMap) (tokenId : String) (e : SnapEntry) : SnapMap :=
  (tokenId, e) :: m

/-- One pending snapshot write produced by the live scanner
(src/scan.js lines 376-377). -/
structure SnapUpdate where
  tokenId : String
  mid : ℚ
  bid : ℚ
  ask : ℚ
deriving DecidableEq

/-- The run loop applying the scanner's snapshot updates
(src/unnamed/part_001 lines 40-42). -/
def applyUpdates (now : ℤ) (m : SnapMap) (us : List SnapUpdate) : SnapMap :=
  us.foldl (fun acc u => snapInsert acc u.tokenId ⟨u.mid, u.bid, u.ask, now⟩) m

/-! ## Live-monitoring scanner (src/engine.js = src/scan.js lines 305-439) -/

/-- Configuration of the live-monitoring variant (`defaultConfig`,
src/scan.js lines 307-320). -/
structure Cfg where
  notional : ℚ
  scanLimit : ℕ
  minVolume24h : ℚ
  minLiquidity : ℚ
  maxSpread : ℚ
  minMove : ℚ
  tp : ℚ
  sl : ℚ
  maxHoldMs : ℤ
  pollMs : ℤ
deriving DecidableEq

/-- `defaultConfig` (src/scan.js lines 307-320). -/
def defaultConfig : Cfg :=
  ⟨200, 200, 50000, 10000, 2/100, 2/100, 2/100, 2/100, 60 * 60000, 30000⟩

/-- Argument of `pickTokenByMove` (src/scan.js lines 390-393). -/
structure MoveToken where
  tokenId : String
  mid : ℚ
  prevMid : ℚ
  spread : ℚ
  book : Book
  move : ℚ
deriving DecidableEq

/-- `pickTokenByMove` (src/scan.js lines 322-327): stable sort by descending
absolute move, take the first. -/
def pickTokenByMove (tokens : List MoveToken) : Option MoveToken :=
  (List.insertionSort
    (fun a b => |b.mid - b.prevMid| ≤ |a.mid - a.prevMid|) tokens).head?

/-- The token the live scanner chose for a market, together with its fill
(the `chosen` object pushed in src/scan.js lines 410-424). -/
structure LiveChosen where
  tokenId : String
  mid : ℚ
  prevMid : ℚ
  move : ℚ
  spread : ℚ
  bid : ℚ
  ask : ℚ
  entry : Fill
deriving DecidableEq

/-- The filter chain the live scanner applies after recording snapshot updates
(src/scan.js lines 379-424): joint spread reject, pick the larger mover,
minimum-move gate, per-token spread gate, entry fill gate. -/
def liveSelect (snaps : SnapMap) (cfg : Cfg) (tokenA tokenB : String)
    (bookA bookB : Book) (bidA askA bidB askB : ℚ) : Option LiveChosen :=
  let midA := (bidA + askA) / 2
  let midB := (bidB + askB) / 2
  let spreadA := askA - bidA
  let spreadB := askB - bidB
  if cfg.maxSpread < spreadA ∧ cfg.maxSpread < spreadB then none
  else
    let prevA := ((snaps.lookup tokenA).map SnapEntry.mid).getD midA
    let prevB := ((snaps.lookup tokenB).map SnapEntry.mid).getD midB
    match pickTokenByMove
        [⟨tokenA, midA, prevA, spreadA, bookA, midA - prevA⟩,
         ⟨tokenB, midB, prevB, spreadB, bookB, midB - prevB⟩] with
    | none => none
    | some best =>
      if |best.mid - best.prevMid| < cfg.minMove then none
      else if cfg.maxSpread < best.spread then none
      else
        match marketFill best.book .buy cfg.notional with
        | none => none
        | some entry =>
          some ⟨best.tokenId, best.mid, best.prevMid, best.mid - best.prevMid,
            best.spread,
            if best.tokenId == tokenA then bidA else bidB,
            if best.tokenId == tokenA then askA else askB, entry⟩

/-- Per-market body of the live scanner's loop (src/scan.js lines 350-424),
with the order-book endpoint abstracted as `fetch` (`none` models a failed
fetch).  Returns the snapshot updates the market contributes and the selected
candidate, if any.  Both snapshot updates are pushed as soon as both books
yield a best bid and a best ask, before any rejection filter runs. -/
def liveProcessMarket (snaps : SnapMap) (cfg : Cfg)
    (fetch : String → Option Book) (m : Market) :
    List SnapUpdate × Option LiveChosen :=
  if m.clobTokenIds.length < 2 then ([], none)
  else
    let tokenA := m.clobTokenIds.getD 0 ""
    let tokenB := m.clobTokenIds.getD 1 ""
    match fetch tokenA, fetch tokenB with
    | some bookA, some bookB =>
      (match bestBidAsk bookA, bestBidAsk bookB with
       | (some bidA, some askA), (some bidB, some askB) =>
         ([⟨tokenA, (bidA + askA) / 2, bidA, askA⟩,
           ⟨tokenB, (bidB + askB) / 2, bidB, askB⟩],
          liveSelect snaps cfg tokenA tokenB bookA bookB bidA askA bidB askB)
       | _, _ => ([], none))
    | _, _ => ([], none)

/-! ## Single-shot scanner (src/scan.js lines 158-299) -/

/-- A token candidate of the single-shot scan (src/scan.js lines 196-217):
observed book, best quotes, mid, spread and distance to the outcome's
reference price.  The JS falsy test `if (!bestBid || !bestAsk) continue`
drops a zero best quote as well as a missing one. -/
structure MainTokenCand where
  idx : ℕ
  token : String
  refPrice : ℚ
  book : Book
  bestBid : ℚ
  bestAsk : ℚ
  mid : ℚ
  spread : ℚ
  err : ℚ
deriving DecidableEq

/-- The token-candidate loop of the single-shot scan (src/scan.js lines
198-217) over the `tokenIds`/`prices` pairs, indices below the shorter length. -/
def mainTokenCandidates (fetch : String → Option Book)
    (pairs : List (String × Option ℚ)) : List MainTokenCand :=
  pairs.enum.filterMap fun ip =>
    match ip.2.2 with
    | none => none
    | some refPrice =>
      match fetch ip.2.1 with
      | none => none
      | some book =>
        match bestBidAsk book with
        | (some bb, some ba) =>
          if bb = 0 ∨ ba = 0 then none
          else some ⟨ip.1, ip.2.1, refPrice, book, bb, ba, (bb + ba) / 2,
            ba - bb, |(bb + ba) / 2 - refPrice|⟩
        | _ => none

/-- A row the single-shot scan reports (src/scan.js lines 248-265).  The
real-valued `score` field computed by `opportunityScore` is omitted so the
record stays computable; it influences neither control flow nor snapshot
writes. -/
structure MainRow where
  question : String
  marketId : String
  vol24h : ℚ
  liq : ℚ
  bestBid : ℚ
  bestAsk : ℚ
  mid : ℚ
  spread : ℚ
  absMove1h : ℚ
  slipBuy : ℚ
  slipSell : Option ℚ
  token : String
  refPrice : ℚ
deriving DecidableEq

/-- Per-market body of the single-shot scan's loop (src/scan.js lines
184-269): outcome/price/token arity gate, token-candidate collection, stable
sort by reference-price distance, move lookup (JS falsy `prevMid ? … : 0`
yields `0` for a zero previous mid), slippage estimates, spread and entry
gates, and — only when every gate passed — the single snapshot write for the
chosen token (line 268). -/
def mainProcessMarket (prevByToken : SnapMap) (fetch : String → Option Book)
    (maxSpread notionalUsd : ℚ) (now : ℤ) (m : Market) :
    Option MainRow × List (String × SnapEntry) :=
  if m.outcomes.length < 2 ∨ m.outcomePrices.length < 2 ∨ m.clobTokenIds.length < 2 then
    (none, [])
  else
    match List.insertionSort (fun a b => a.err ≤ b.err)
        (mainTokenCandidates fetch (m.clobTokenIds.zip m.outcomePrices)) with
    | [] => (none, [])
    | chosen :: _ =>
      let prevMid := (prevByToken.lookup chosen.token).map SnapEntry.mid
      let absMove1h : ℚ :=
        match prevMid with
        | some pm => if pm = 0 then 0 else |chosen.mid - pm|
        | none => 0
      let slipBuy := (slippageForNotional chosen.book .buy notionalUsd).map SlipResult.slippage
      let slipSell := (slippageForNotional chosen.book .sell notionalUsd).map SlipResult.slippage
      if maxSpread < chosen.spread then (none, [])
      else
        match slipBuy with
        | none => (none, [])
        | some sb =>
          (some ⟨m.question, m.id, m.volume24hr.getD 0, m.liquidityNum.getD 0,
             chosen.bestBid, chosen.bestAsk, chosen.mid, chosen.spread, absMove1h,
             sb, slipSell, chosen.token, chosen.refPrice⟩,
           [(chosen.token, ⟨chosen.mid, chosen.bestBid, chosen.bestAsk, now⟩)])

/-! ## Position lifecycle (src/engine.js lines 441-493, run loop
src/unnamed/part_001 lines 29-162) -/

/-- The fields of the best opportunity object the run loop consumes
(src/scan.js lines 410-424 and 432-437): only those `buildPosition` reads. -/
structure Opp where
  marketId : String
  question : String
  url : String
  chosen : LiveChosen
  reason : String
deriving DecidableEq

/-- `position.entry` (src/scan.js lines 453-460). -/
structure EntryInfo where
  avgPrice : ℚ
  shares : ℚ
  bookBid : ℚ
  bookAsk : ℚ
  spread : ℚ
  reason : String
deriving DecidableEq

/-- `position.exits` (src/scan.js lines 461-465). -/
structure ExitRules where
  takeProfitPrice : ℚ
  stopLossPrice : ℚ
  maxHoldMs : ℤ
deriving DecidableEq

/-- `position.lastMark` (src/scan.js lines 467-472). -/
structure Mark where
  t : ℤ
  mid : ℚ
  bid : ℚ
  ask : ℚ
deriving DecidableEq

/-- A simulated position (src/scan.js lines 441-474). -/
structure Position where
  id : String
  openedAt : ℤ
  marketId : String
  question : String
  url : String
  tokenId : String
  notional : ℚ
  entry : EntryInfo
  exits : ExitRules
  status : String
  lastMark : Mark
deriving DecidableEq

/-- `buildPosition` (src/scan.js lines 441-474), with `Date.now()` passed in
explicitly as `now`. -/
def buildPosition (now : ℤ) (op : Opp) (cfg : Cfg) : Position :=
  let entryPrice := op.chosen.entry.avgPrice
  { id := "t" ++ toString now ++ "-" ++ op.marketId ++ "-" ++ op.chosen.tokenId
    openedAt := now
    marketId := op.marketId
    question := op.question
    url := op.url
    tokenId := op.chosen.tokenId
    notional := cfg.notional
    entry := ⟨entryPrice, op.chosen.entry.shares, op.chosen.bid, op.chosen.ask,
      op.chosen.spread, op.reason⟩
    exits := ⟨min (999/1000) (entryPrice + cfg.tp),
      max (1/1000) (entryPrice - cfg.sl), cfg.maxHoldMs⟩
    status := "OPEN"
    lastMark := ⟨now, op.chosen.mid, op.chosen.bid, op.chosen.ask⟩ }

/-- Exit reasons (src/scan.js lines 480, 486, 489). -/
inductive ExitReason where
  | TIME_STOP
  | TAKE_PROFIT
  | STOP_LOSS
deriving DecidableEq

/-- The value `shouldExit` returns when an exit rule fires. -/
structure ExitDecision where
  reason : ExitReason
  exitAt : ℤ
deriving DecidableEq

/-- The mark object passed to `shouldExit` (src/unnamed/part_001 line 105). -/
structure MarkQuote where
  bid : ℚ
  ask : ℚ
  mid : ℚ
deriving DecidableEq

/-- `shouldExit` (src/scan.js lines 476-493), with `Date.now()` passed in
explicitly as `now`: time stop first and unconditionally, then take profit
against the bid, then stop loss, otherwise no exit. -/
def shouldExit (position : Position) (mark : MarkQuote) (now : ℤ) :
    Option ExitDecision :=
  let ageMs := now - position.openedAt
  if position.exits.maxHoldMs ≤ ageMs then some ⟨.TIME_STOP, now⟩
  else
    let px := mark.bid
    if position.exits.takeProfitPrice ≤ px then some ⟨.TAKE_PROFIT, now⟩
    else if px ≤ position.exits.stopLossPrice then some ⟨.STOP_LOSS, now⟩
    else none

/-- `state.snapshots` (src/state.js line 20). -/
structure Snapshots where
  byToken : SnapMap
  t : ℤ
deriving DecidableEq

/-- The persisted run state (src/state.js lines 15-21), sans the creation
time the core never reads. -/
structure RunState where
  lastScanAt : Option ℤ
  openPosition : Option Position
  lastClosedId : Option String
  snapshots : Snapshots
deriving DecidableEq

/-- What `findOpportunity` returns to the run loop
(src/scan.js lines 430-438). -/
structure ScanResult where
  best : Option Opp
  snapshotUpdates : List SnapUpdate
deriving DecidableEq

/-- One cycle's external inputs: the scan outcome (used only when no position
is open), the monitored token's book fetch (`none` models a failed fetch, used
only when a position is open), and the clock. -/
structure CycleEnv where
  scan : ScanResult
  book : Option Book
  now : ℤ
deriving DecidableEq

/-- The closed-trade summary (src/unnamed/part_001 lines 120-138), restricted
to the numeric fields. -/
structure ClosedTrade where
  id : String
  openedAt : ℤ
  closedAt : ℤ
  durationMs : ℤ
  marketId : String
  tokenId : String
  notional : ℚ
  entryAvg : ℚ
  exitAvg : ℚ
  shares : ℚ
  pnl : ℚ
  exitReason : ExitReason
deriving DecidableEq

/-- `markAndSnapshot` (src/unnamed/part_001 lines 24-27). -/
def markAndSnapshot (s : RunState) (tokenId : String) (mid bid ask : ℚ)
    (now : ℤ) : RunState :=
  { s with snapshots := ⟨snapInsert s.snapshots.byToken tokenId ⟨mid, bid, ask, now⟩, now⟩ }

/-- One iteration of the run loop (src/unnamed/part_001 lines 33-161).  With
no open position: apply the scan's snapshot updates, and when a best
opportunity exists, build and store the position and snapshot its token.
With an open position: monitor only — refresh the mark and snapshot, evaluate
`shouldExit`, and on an exit compute the closing fill (falling back to the
best bid) and clear the position slot. -/
def runCycle (cfg : Cfg) (env : CycleEnv) (s : RunState) :
    RunState × Option ClosedTrade :=
  match s.openPosition with
  | none =>
    let s1 : RunState :=
      { s with
        snapshots := ⟨applyUpdates env.now s.snapshots.byToken env.scan.snapshotUpdates, env.now⟩
        lastScanAt := some env.now }
    match env.scan.best with
    | none => (s1, none)
    | some op =>
      let position := buildPosition env.now op cfg
      let s2 := { s1 with openPosition := some position }
      let s3 := markAndSnapshot s2 position.tokenId position.lastMark.mid
        position.lastMark.bid position.lastMark.ask env.now
      (s3, none)
  | some p =>
    match env.book with
    | none => (s, none)
    | some book =>
      match bestBidAsk book with
      | (some bestBid, some bestAsk) =>
        let mid := (bestBid + bestAsk) / 2
        let p' := { p with lastMark := ⟨env.now, mid, bestBid, bestAsk⟩ }
        let s1 := { s with openPosition := some p' }
        let s2 := markAndSnapshot s1 p'.tokenId mid bestBid bestAsk env.now
        match shouldExit p' ⟨bestBid, bestAsk, mid⟩ env.now with
        | none => (s2, none)
        | some d =>
          let exitFill := marketFill book .sell
            (min p'.notional (p'.entry.avgPrice * p'.entry.shares))
          let exitAvg := (exitFill.map Fill.avgPrice).getD bestBid
          let pnl := (exitAvg - p'.entry.avgPrice) * p'.entry.shares
          ({ s2 with openPosition := none, lastClosedId := some p'.id },
           some ⟨p'.id, p'.openedAt, env.now, env.now - p'.openedAt, p'.marketId,
             p'.tokenId, p'.notional, p'.entry.avgPrice, exitAvg,
             p'.entry.shares, pnl, d.reason⟩)
      | _ => (s, none)

/-! ## Witness fixtures -/

/-- An order book whose spread (0.30) far exceeds every configured maximum. -/
def bookWA : Book := ⟨[⟨some (3/10), some 50⟩], [⟨some (3/5), some 50⟩]⟩

/-- A second wide book for the complementary token. -/
def bookWB : Book := ⟨[⟨some (1/5), some 50⟩], [⟨some (9/10), some 50⟩]⟩

/-- A book fetcher serving the two fixture tokens. -/
def fetchW : String → Option Book := fun t =>
  if t = "tA" then some bookWA else if t = "tB" then some bookWB else none

/-- A binary market over the two fixture tokens; its end date is unparseable. -/
def mW : Market :=
  ⟨"m1", "slug1", "q1", false, true, none, some 100000, some 20000, none, none,
   ["Yes", "No"], [some (1/2), some (1/2)], ["tA", "tB"]⟩

/-- The fixture market with a parseable near-term end date. -/
def mWdated : Market := { mW with endDate := some 100 }

/-- A one-sided ask book with ample depth at price 0.5. -/
def bookW3 : Book := ⟨[], [⟨some (1/2), some 100⟩]⟩

/-- A concrete open position: entry 0.40, take profit 0.42, stop loss 0.38,
one-hour maximum hold, opened at time 0. -/
def posW : Position :=
  ⟨"t0-m1-tA", 0, "m1", "q1", "u1", "tA", 200,
   ⟨2/5, 500, 39/100, 41/100, 2/100, "r"⟩,
   ⟨21/50, 19/50, 3600000⟩, "OPEN", ⟨0, 2/5, 39/100, 41/100⟩⟩

/-- A run state holding the fixture position. -/
def sW : RunState := ⟨none, some posW, none, ⟨[], 0⟩⟩

/-- A cycle environment whose book fetch failed. -/
def envW : CycleEnv := ⟨⟨none, []⟩, none, 30000⟩

/-! ## Best-quote fold lemmas -/

theorem bidFold_spec (ls : List RawLevel) : ∀ acc : Option ℚ,
    (∀ b, ls.foldl (bestLevelStep fun p x => decide (x < p)) acc = some b →
      (b ∈ ls.filterMap RawLevel.price ∨ acc = some b) ∧
      (∀ p ∈ ls.filterMap RawLevel.price, p ≤ b) ∧
      (∀ x, acc = some x → x ≤ b)) ∧
    (ls.foldl (bestLevelStep fun p x => decide (x < p)) acc = none →
      acc = none ∧ ls.filterMap RawLevel.price = []) := by
  induction ls with
  | nil =>
    intro acc
    constructor
    · intro b hb
      simp only [List.foldl_nil] at hb
      refine ⟨Or.inr hb, by simp, ?_⟩
      intro x hx
      rw [hb] at hx
      exact le_of_eq (Option.some_injective ℚ hx).symm
    · intro h
      exact ⟨h, rfl⟩
  | cons l ls ih =>
    intro acc
    cases hl : l.price with
    | none =>
      have hstep : bestLevelStep (fun p x => decide (x < p)) acc l = acc := by
        simp [bestLevelStep, hl]
      constructor
      · intro b hb
        rw [List.foldl_cons, hstep] at hb
        obtain ⟨h1, h2, h3⟩ := (ih acc).1 b hb
        refine ⟨?_, ?_, h3⟩
        · rcases h1 with h1 | h1
          · exact Or.inl (by simpa [List.filterMap_cons, hl] using h1)
          · exact Or.inr h1
        · simpa [List.filterMap_cons, hl] using h2
      · intro hb
        rw [List.foldl_cons, hstep] at hb
        obtain ⟨h1, h2⟩ := (ih acc).2 hb
        exact ⟨h1, by simpa [List.filterMap_cons, hl] using h2⟩
    | some p =>
      have hm : ∃ m, bestLevelStep (fun p x => decide (x < p)) acc l = some m ∧
          (m = p ∨ acc = some m) ∧ p ≤ m ∧ (∀ x, acc = some x → x ≤ m) := by
        cases hacc : acc with
        | none =>
          exact ⟨p, by simp [bestLevelStep, hl], Or.inl rfl, le_refl p, by simp⟩
        | some b =>
          by_cases hbp : b < p
          · refine ⟨p, ?_, Or.inl rfl, le_refl p, ?_⟩
            · simp [bestLevelStep, hl, hbp]
            · intro x hx
              cases hx
              exact le_of_lt hbp
          · refine ⟨b, ?_, Or.inr rfl, not_lt.mp hbp, ?_⟩
            · simp [bestLevelStep, hl, hbp]
            · intro x hx
              cases hx
              exact le_refl b
      obtain ⟨m, hstep, hmem, hpm, hpre⟩ := hm
      constructor
      · intro b hb
        rw [List.foldl_cons, hstep] at hb
        obtain ⟨h1, h2, h3⟩ := (ih (some m)).1 b hb
        have hmb : m ≤ b := h3 m rfl
        constructor
        · rcases h1 with h1 | h1
          · exact Or.inl (by simp [List.filterMap_cons, hl, h1])
          · have hb' : b = m := (Option.some_injective ℚ h1).symm
            rcases hmem with h | h
            · exact Or.inl (by simp [List.filterMap_cons, hl, hb', h])
            · exact Or.inr (by rw [hb', ← h])
        · refine ⟨?_, ?_⟩
          · intro q hq
            rw [List.filterMap_cons, hl] at hq
            rcases List.mem_cons.mp hq with h | h
            · exact h ▸ le_trans hpm hmb
            · exact h2 q h
          · intro x hx
            exact le_trans (hpre x hx) hmb
      · intro hb
        rw [List.foldl_cons, hstep] at hb
        obtain ⟨h1, _⟩ := (ih (some m)).2 hb
        exact absurd h1 (by simp)

theorem askFold_spec (ls : List RawLevel) : ∀ acc : Option ℚ,
    (∀ b, ls.foldl (bestLevelStep fun p x => decide (p < x)) acc = some b →
      (b ∈ ls.filterMap RawLevel.price ∨ acc = some b) ∧
      (∀ p ∈ ls.filterMap RawLevel.price, b ≤ p) ∧
      (∀ x, acc = some x → b ≤ x)) ∧
    (ls.foldl (bestLevelStep fun p x => decide (p < x)) acc = none →
      acc = none ∧ ls.filterMap RawLevel.price = []) := by
  induction ls with
  | nil =>
    intro acc
    constructor
    · intro b hb
      simp only [List.foldl_nil] at hb
      refine ⟨Or.inr hb, by simp, ?_⟩
      intro x hx
      rw [hb] at hx
      exact le_of_eq (Option.some_injective ℚ hx)
    · intro h
      exact ⟨h, rfl⟩
  | cons l ls ih =>
    intro acc
    cases hl : l.price with
    | none =>
      have hstep : bestLevelStep (fun p x => decide (p < x)) acc l = acc := by
        simp [bestLevelStep, hl]
      constructor
      · intro b hb
        rw [List.foldl_cons, hstep] at hb
        obtain ⟨h1, h2, h3⟩ := (ih acc).1 b hb
        refine ⟨?_, ?_, h3⟩
        · rcases h1 with h1 | h1
          · exact Or.inl (by simpa [List.filterMap_cons, hl] using h1)
          · exact Or.inr h1
        · simpa [List.filterMap_cons, hl] using h2
      · intro hb
        rw [List.foldl_cons, hstep] at hb
        obtain ⟨h1, h2⟩ := (ih acc).2 hb
        exact ⟨h1, by simpa [List.filterMap_cons, hl] using h2⟩
    | some p =>
      have hm : ∃ m, bestLevelStep (fun p x => decide (p < x)) acc l = some m ∧
          (m = p ∨ acc = some m) ∧ m ≤ p ∧ (∀ x, acc = some x → m ≤ x) := by
        cases hacc : acc with
        | none =>
          exact ⟨p, by simp [bestLevelStep, hl], Or.inl rfl, le_refl p, by simp⟩
        | some b =>
          by_cases hbp : p < b
          · refine ⟨p, ?_, Or.inl rfl, le_refl p, ?_⟩
            · simp [bestLevelStep, hl, hbp]
            · intro x hx
              cases hx
              exact le_of_lt hbp
          · refine ⟨b, ?_, Or.inr rfl, not_lt.mp hbp, ?_⟩
            · simp [bestLevelStep, hl, hbp]
            · intro x hx
              cases hx
              exact le_refl b
      obtain ⟨m, hstep, hmem, hpm, hpre⟩ := hm
      constructor
      · intro b hb
        rw [List.foldl_cons, hstep] at hb
        obtain ⟨h1, h2, h3⟩ := (ih (some m)).1 b hb
        have hmb : b ≤ m := h3 m rfl
        constructor
        · rcases h1 with h1 | h1
          · exact Or.inl (by simp [List.filterMap_cons, hl, h1])
          · have hb' : b = m := (Option.some_injective ℚ h1).symm
            rcases hmem with h | h
            · exact Or.inl (by simp [List.filterMap_cons, hl, hb', h])
            · exact Or.inr (by rw [hb', ← h])
        · refine ⟨?_, ?_⟩
          · intro q hq
            rw [List.filterMap_cons, hl] at hq
            rcases List.mem_cons.mp hq with h | h
            · exact h ▸ le_trans hmb hpm
            · exact h2 q h
          · intro x hx
            exact le_trans hmb (hpre x hx)
      · intro hb
        rw [List.foldl_cons, hstep] at hb
        obtain ⟨h1, _⟩ := (ih (some m)).2 hb
        exact absurd h1 (by simp)

/-! ## Claim C9: best bid / best ask computation -/

/-- C9, counterexample: `bestBidAsk` does not ignore non-positive prices.  On a
book whose only ask level has the finite price `-1`, that negative price
becomes the best ask, contradicting the claim that an ask level with zero or
negative price never becomes the best ask. -/
theorem bestBidAsk_negative_ask :
    (bestBidAsk ⟨[], [⟨some (-1), some 5⟩]⟩).2 = some (-1) ∧ (-1 : ℚ) < 0 := by
  constructor
  · rfl
  · norm_num

/-- C9, amended: `bestBidAsk` computes the best bid as the maximum and the
best ask as the minimum over the levels whose price is finite; it filters only
non-finite prices, so zero or negative finite prices do participate.  `none`
is returned for a side exactly when it has no finite price. -/
theorem bestBidAsk_max_min (book : Book) :
    (∀ b, (bestBidAsk book).1 = some b →
      b ∈ book.bids.filterMap RawLevel.price ∧
      ∀ p ∈ book.bids.filterMap RawLevel.price, p ≤ b) ∧
    ((bestBidAsk book).1 = none → book.bids.filterMap RawLevel.price = []) ∧
    (∀ a, (bestBidAsk book).2 = some a →
      a ∈ book.asks.filterMap RawLevel.price ∧
      ∀ p ∈ book.asks.filterMap RawLevel.price, a ≤ p) ∧
    ((bestBidAsk book).2 = none → book.asks.filterMap RawLevel.price = []) := by
  refine ⟨?_, ?_, ?_, ?_⟩
  · intro b hb
    obtain ⟨h1, h2, _⟩ := (bidFold_spec book.bids none).1 b hb
    refine ⟨?_, h2⟩
    rcases h1 with h1 | h1
    · exact h1
    · exact absurd h1 (by simp)
  · intro hb
    exact ((bidFold_spec book.bids none).2 hb).2
  · intro a ha
    obtain ⟨h1, h2, _⟩ := (askFold_spec book.asks none).1 a ha
    refine ⟨?_, h2⟩
    rcases h1 with h1 | h1
    · exact h1
    · exact absurd h1 (by simp)
  · intro ha
    exact ((askFold_spec book.asks none).2 ha).2

/-- C9, witness for the amended theorem at a concrete book: the maximum bid
and minimum ask are picked among two finite levels each, with a non-finite
level ignored. -/
theorem bestBidAsk_max_min_witness :
    (bestBidAsk ⟨[⟨some (2/5), some 1⟩, ⟨none, some 2⟩, ⟨some (1/2), some 1⟩],
        [⟨some (3/5), some 1⟩, ⟨some (11/20), some 1⟩]⟩).1 = some (1/2) ∧
    (1/2 : ℚ) ∈ List.filterMap RawLevel.price
      [⟨some (2/5), some 1⟩, ⟨none, some 2⟩, ⟨some (1/2), some 1⟩] := by
  refine ⟨by norm_num [bestBidAsk, bestLevelStep], ?_⟩
  exact (bestBidAsk_max_min ⟨[⟨some (2/5), some 1⟩, ⟨none, some 2⟩, ⟨some (1/2), some 1⟩],
    [⟨some (3/5), some 1⟩, ⟨some (11/20), some 1⟩]⟩).1 (1/2)
    (by norm_num [bestBidAsk, bestLevelStep]) |>.1

/-! ## Claim C2: exit-rule priority -/

/-- C2: for every open position and every mark, `shouldExit` resolves in fixed
priority order — if the elapsed time has reached `maxHoldMs` the result is
`TIME_STOP` unconditionally (in particular also when the take-profit condition
holds at the same tick); otherwise a bid at or above the take-profit price
gives `TAKE_PROFIT`; otherwise a bid at or below the stop-loss price gives
`STOP_LOSS`; otherwise there is no exit. -/
theorem shouldExit_priority (position : Position) (mark : MarkQuote) (now : ℤ) :
    (position.exits.maxHoldMs ≤ now - position.openedAt →
      shouldExit position mark now = some ⟨.TIME_STOP, now⟩) ∧
    (now - position.openedAt < position.exits.maxHoldMs →
      position.exits.takeProfitPrice ≤ mark.bid →
      shouldExit position mark now = some ⟨.TAKE_PROFIT, now⟩) ∧
    (now - position.openedAt < position.exits.maxHoldMs →
      mark.bid < position.exits.takeProfitPrice →
      mark.bid ≤ position.exits.stopLossPrice →
      shouldExit position mark now = some ⟨.STOP_LOSS, now⟩) ∧
    (now - position.openedAt < position.exits.maxHoldMs →
      mark.bid < position.exits.takeProfitPrice →
      position.exits.stopLossPrice < mark.bid →
      shouldExit position mark now = none) := by
  refine ⟨?_, ?_, ?_, ?_⟩
  · intro ht
    simp [shouldExit, ht]
  · intro ht hp
    simp [shouldExit, not_le.mpr ht, hp]
  · intro ht hp hs
    simp [shouldExit, not_le.mpr ht, not_le.mpr hp, hs]
  · intro ht hp hs
    simp [shouldExit, not_le.mpr ht, not_le.mpr hp, not_le.mpr hs]

/-- C2, witness: at a tick where the fixture position's hold time has elapsed
and the bid also clears the take-profit price, the exit is `TIME_STOP`. -/
theorem shouldExit_priority_witness :
    posW.exits.maxHoldMs ≤ 3600000 - posW.openedAt ∧
    posW.exits.takeProfitPrice ≤ (1/2 : ℚ) ∧
    shouldExit posW ⟨1/2, 11/20, 21/40⟩ 3600000 = some ⟨.TIME_STOP, 3600000⟩ :=
  ⟨by norm_num [posW], by norm_num [posW],
   (shouldExit_priority posW ⟨1/2, 11/20, 21/40⟩ 3600000).1 (by norm_num [posW])⟩

/-! ## Fill-walk lemmas -/

theorem fillWalk_cons (r : ℚ) (lvl : Level) (rest : List Level) :
    fillWalk r (lvl :: rest) =
      if r - min r (lvl.price * lvl.size) ≤ 1 / 1000000000 then
        ⟨r - min r (lvl.price * lvl.size),
         min r (lvl.price * lvl.size) / lvl.price,
         min r (lvl.price * lvl.size), [lvl.price]⟩
      else
        ⟨(fillWalk (r - min r (lvl.price * lvl.size)) rest).remaining,
         min r (lvl.price * lvl.size) / lvl.price +
           (fillWalk (r - min r (lvl.price * lvl.size)) rest).shares,
         min r (lvl.price * lvl.size) +
           (fillWalk (r - min r (lvl.price * lvl.size)) rest).cost,
         lvl.price :: (fillWalk (r - min r (lvl.price * lvl.size)) rest).consumed⟩ :=
  rfl

theorem fillWalk_cost_remaining : ∀ (levels : List Level) (r : ℚ),
    (fillWalk r levels).cost = r - (fillWalk r levels).remaining := by
  intro levels
  induction levels with
  | nil => intro r; simp [fillWalk]
  | cons lvl rest ih =>
    intro r
    rw [fillWalk_cons]
    by_cases hbr : r - min r (lvl.price * lvl.size) ≤ 1 / 1000000000
    · rw [if_pos hbr]
      show min r (lvl.price * lvl.size) = r - (r - min r (lvl.price * lvl.size))
      ring
    · rw [if_neg hbr]
      have h1 := ih (r - min r (lvl.price * lvl.size))
      show min r (lvl.price * lvl.size) +
          (fillWalk (r - min r (lvl.price * lvl.size)) rest).cost =
        r - (fillWalk (r - min r (lvl.price * lvl.size)) rest).remaining
      linarith

/-- Every level surviving the `sortedLevels` filter has strictly positive
finite price and size, and comes from a raw level of the book whose price
field is that finite price. -/
theorem sortedLevels_mem (book : Book) (side : Side) :
    ∀ l ∈ sortedLevels book side, (0 < l.price ∧ 0 < l.size) ∧
      ∃ rl ∈ book.bids ++ book.asks, rl.price = some l.price := by
  intro l hl
  have hfil : l ∈ ((match side with | .buy => book.asks | .sell => book.bids).filterMap
      toNumLevel).filter (fun lv : Level => decide (0 < lv.price ∧ 0 < lv.size)) := by
    cases side with
    | buy => exact (List.mem_insertionSort _).mp hl
    | sell => exact (List.mem_insertionSort _).mp hl
  obtain ⟨hmem, hpos⟩ := List.mem_filter.mp hfil
  obtain ⟨rl, hrl, hto⟩ := List.mem_filterMap.mp hmem
  refine ⟨of_decide_eq_true hpos, rl, ?_, ?_⟩
  · cases side with
    | buy => exact List.mem_append_right _ hrl
    | sell => exact List.mem_append_left _ hrl
  · cases hrp : rl.price with
    | none => simp [toNumLevel, hrp] at hto
    | some p =>
      cases hrs : rl.size with
      | none => simp [toNumLevel, hrp, hrs] at hto
      | some s =>
        simp only [toNumLevel, hrp, hrs, Option.some.injEq] at hto
        subst hto
        rfl

/-- When the walk accumulates positive cost over valid levels, the requested
notional was positive. -/
theorem fillWalk_notional_pos : ∀ (levels : List Level) (r : ℚ),
    (∀ l ∈ levels, 0 < l.price ∧ 0 < l.size) →
    0 < (fillWalk r levels).cost → 0 < r := by
  intro levels r hlv hc
  cases levels with
  | nil => simp [fillWalk] at hc
  | cons lvl rest =>
    have hp := hlv lvl (List.mem_cons_self _ _)
    have husd : 0 < lvl.price * lvl.size := mul_pos hp.1 hp.2
    rw [fillWalk_cons] at hc
    by_cases hbr : r - min r (lvl.price * lvl.size) ≤ 1 / 1000000000
    · rw [if_pos hbr] at hc
      have hc' : 0 < min r (lvl.price * lvl.size) := hc
      exact lt_of_lt_of_le hc' (min_le_left _ _)
    · by_contra hr
      push_neg at hr
      have hmin : min r (lvl.price * lvl.size) = r :=
        min_eq_left (le_of_lt (lt_of_le_of_lt hr husd))
      rw [hmin] at hbr
      simp at hbr

/-- Main invariant of the level walk over valid levels and positive remaining
notional: shares are non-negative, an empty consumed list means nothing was
filled, every consumed price is the price of a walked level, and the cost is
squeezed between `lo * shares` and `hi * shares` for any bounds `lo`/`hi` on
the consumed prices. -/
theorem fillWalk_spec : ∀ (levels : List Level) (r : ℚ),
    (∀ l ∈ levels, 0 < l.price ∧ 0 < l.size) → 0 < r →
    0 ≤ (fillWalk r levels).shares ∧
    ((fillWalk r levels).consumed = [] →
      (fillWalk r levels).shares = 0 ∧ (fillWalk r levels).cost = 0) ∧
    (∀ p ∈ (fillWalk r levels).consumed, ∃ l ∈ levels, l.price = p) ∧
    (∀ lo hi : ℚ, (∀ p ∈ (fillWalk r levels).consumed, lo ≤ p ∧ p ≤ hi) →
      lo * (fillWalk r levels).shares ≤ (fillWalk r levels).cost ∧
      (fillWalk r levels).cost ≤ hi * (fillWalk r levels).shares) := by
  intro levels
  induction levels with
  | nil =>
    intro r _ _
    refine ⟨le_refl 0, fun _ => ⟨rfl, rfl⟩, by simp [fillWalk], ?_⟩
    intro lo hi _
    constructor <;> simp [fillWalk]
  | cons lvl rest ih =>
    intro r hlv hr
    have hp := hlv lvl (List.mem_cons_self _ _)
    have husd : 0 < lvl.price * lvl.size := mul_pos hp.1 hp.2
    have htpos : 0 < min r (lvl.price * lvl.size) := lt_min hr husd
    have hts : 0 ≤ min r (lvl.price * lvl.size) / lvl.price :=
      div_nonneg htpos.le hp.1.le
    rw [fillWalk_cons]
    by_cases hbr : r - min r (lvl.price * lvl.size) ≤ 1 / 1000000000
    · rw [if_pos hbr]
      refine ⟨hts, by simp, ?_, ?_⟩
      · intro p hp'
        rcases List.mem_singleton.mp hp' with rfl
        exact ⟨lvl, List.mem_cons_self _ _, rfl⟩
      · intro lo hi hlohi
        obtain ⟨hlo, hhi⟩ := hlohi lvl.price (List.mem_singleton_self _)
        constructor
        · calc lo * (min r (lvl.price * lvl.size) / lvl.price)
              ≤ lvl.price * (min r (lvl.price * lvl.size) / lvl.price) :=
                mul_le_mul_of_nonneg_right hlo hts
            _ = min r (lvl.price * lvl.size) := by
                rw [mul_comm lvl.price (min r (lvl.price * lvl.size) / lvl.price),
                  div_mul_cancel₀ _ (ne_of_gt hp.1)]
        · calc min r (lvl.price * lvl.size)
              = lvl.price * (min r (lvl.price * lvl.size) / lvl.price) := by
                rw [mul_comm lvl.price (min r (lvl.price * lvl.size) / lvl.price),
                  div_mul_cancel₀ _ (ne_of_gt hp.1)]
            _ ≤ hi * (min r (lvl.price * lvl.size) / lvl.price) :=
                mul_le_mul_of_nonneg_right hhi hts
    · rw [if_neg hbr]
      push_neg at hbr
      have hrt : 0 < r - min r (lvl.price * lvl.size) := lt_trans (by norm_num) hbr
      have hrest : ∀ l ∈ rest, 0 < l.price ∧ 0 < l.size :=
        fun l hl => hlv l (List.mem_cons_of_mem _ hl)
      obtain ⟨ihs, _, ihmem, ihbnd⟩ := ih (r - min r (lvl.price * lvl.size)) hrest hrt
      refine ⟨add_nonneg hts ihs, by simp, ?_, ?_⟩
      · intro p hp'
        rcases List.mem_cons.mp hp' with rfl | hp'
        · exact ⟨lvl, List.mem_cons_self _ _, rfl⟩
        · obtain ⟨l, hl, hlp⟩ := ihmem p hp'
          exact ⟨l, List.mem_cons_of_mem _ hl, hlp⟩
      · intro lo hi hlohi
        obtain ⟨hlo, hhi⟩ := hlohi lvl.price (List.mem_cons_self _ _)
        obtain ⟨hb1, hb2⟩ := ihbnd lo hi fun p hp' => hlohi p (List.mem_cons_of_mem _ hp')
        have h1 : lo * (min r (lvl.price * lvl.size) / lvl.price) ≤
            min r (lvl.price * lvl.size) := by
          calc lo * (min r (lvl.price * lvl.size) / lvl.price)
              ≤ lvl.price * (min r (lvl.price * lvl.size) / lvl.price) :=
                mul_le_mul_of_nonneg_right hlo hts
            _ = min r (lvl.price * lvl.size) := by
                rw [mul_comm lvl.price (min r (lvl.price * lvl.size) / lvl.price),
                  div_mul_cancel₀ _ (ne_of_gt hp.1)]
        have h2 : min r (lvl.price * lvl.size) ≤
            hi * (min r (lvl.price * lvl.size) / lvl.price) := by
          calc min r (lvl.price * lvl.size)
              = lvl.price * (min r (lvl.price * lvl.size) / lvl.price) := by
                rw [mul_comm lvl.price (min r (lvl.price * lvl.size) / lvl.price),
                  div_mul_cancel₀ _ (ne_of_gt hp.1)]
            _ ≤ hi * (min r (lvl.price * lvl.size) / lvl.price) :=
                mul_le_mul_of_nonneg_right hhi hts
        constructor
        · simp only [mul_add]
          exact add_le_add h1 hb1
        · simp only [mul_add]
          exact add_le_add h2 hb2

/-- A non-empty list of rationals has a least and a greatest element. -/
theorem exists_min_max : ∀ (ps : List ℚ), ps ≠ [] →
    ∃ pmin ∈ ps, ∃ pmax ∈ ps, ∀ p ∈ ps, pmin ≤ p ∧ p ≤ pmax := by
  intro ps
  induction ps with
  | nil => intro h; exact absurd rfl h
  | cons x xs ih =>
    intro _
    by_cases hxs : xs = []
    · subst hxs
      refine ⟨x, List.mem_singleton_self _, x, List.mem_singleton_self _, ?_⟩
      intro p hp
      rcases List.mem_singleton.mp hp with rfl
      exact ⟨le_refl p, le_refl p⟩
    · obtain ⟨pmin, hmin, pmax, hmax, hbnd⟩ := ih hxs
      refine ⟨min x pmin, ?_, max x pmax, ?_, ?_⟩
      · rcases le_total x pmin with h | h
        · rw [min_eq_left h]; exact List.mem_cons_self _ _
        · rw [min_eq_right h]; exact List.mem_cons_of_mem _ hmin
      · rcases le_total x pmax with h | h
        · rw [max_eq_right h]; exact List.mem_cons_of_mem _ hmax
        · rw [max_eq_left h]; exact List.mem_cons_self _ _
      · intro p hp
        rcases List.mem_cons.mp hp with rfl | hp
        · exact ⟨min_le_left _ _, le_max_left _ _⟩
        · exact ⟨le_trans (min_le_right _ _) (hbnd p hp).1,
            le_trans (hbnd p hp).2 (le_max_right _ _)⟩

/-! ## Claim C3: fill simulator price bounds -/

/-- C3: whenever `marketFill` returns a fill, the shares are strictly
positive and the average price lies between the least and greatest price
among the levels the walk actually consumed; consequently, when every finite
level price of the book lies in `[0, 1]`, the average price is non-negative
and at most `1`. -/
theorem marketFill_avgPrice_bounds (book : Book) (side : Side)
    (notionalUsd : ℚ) (r : Fill) (h : marketFill book side notionalUsd = some r) :
    0 < r.shares ∧
    (∃ pmin ∈ (fillWalk notionalUsd (sortedLevels book side)).consumed,
     ∃ pmax ∈ (fillWalk notionalUsd (sortedLevels book side)).consumed,
       (∀ p ∈ (fillWalk notionalUsd (sortedLevels book side)).consumed,
         pmin ≤ p ∧ p ≤ pmax) ∧
       pmin ≤ r.avgPrice ∧ r.avgPrice ≤ pmax) ∧
    ((∀ l ∈ book.bids ++ book.asks, ∀ p, l.price = some p → 0 ≤ p ∧ p ≤ 1) →
      0 ≤ r.avgPrice ∧ r.avgPrice ≤ 1) := by
  simp only [marketFill] at h
  split_ifs at h with hg
  push_neg at hg
  obtain ⟨hcost, hshares, hrem⟩ := hg
  have hr' := Option.some.inj h
  subst hr'
  have hvalid : ∀ l ∈ sortedLevels book side, 0 < l.price ∧ 0 < l.size :=
    fun l hl => (sortedLevels_mem book side l hl).1
  have hnpos : 0 < notionalUsd :=
    fillWalk_notional_pos (sortedLevels book side) notionalUsd hvalid hcost
  obtain ⟨_, hempty, hmem, hbnd⟩ :=
    fillWalk_spec (sortedLevels book side) notionalUsd hvalid hnpos
  have hne : (fillWalk notionalUsd (sortedLevels book side)).consumed ≠ [] := by
    intro hc
    rw [(hempty hc).1] at hshares
    exact lt_irrefl 0 hshares
  obtain ⟨pmin, hminmem, pmax, hmaxmem, hminmax⟩ :=
    exists_min_max _ hne
  obtain ⟨hb1, hb2⟩ := hbnd pmin pmax hminmax
  have havg1 : pmin ≤ (fillWalk notionalUsd (sortedLevels book side)).cost /
      (fillWalk notionalUsd (sortedLevels book side)).shares :=
    (le_div_iff₀ hshares).mpr hb1
  have havg2 : (fillWalk notionalUsd (sortedLevels book side)).cost /
      (fillWalk notionalUsd (sortedLevels book side)).shares ≤ pmax :=
    (div_le_iff₀ hshares).mpr hb2
  refine ⟨hshares, ⟨pmin, hminmem, pmax, hmaxmem, hminmax, havg1, havg2⟩, ?_⟩
  intro hb
  obtain ⟨lmin, hlmin, hlminp⟩ := hmem pmin hminmem
  obtain ⟨lmax, hlmax, hlmaxp⟩ := hmem pmax hmaxmem
  have hpmin0 : 0 < pmin := hlminp ▸ (sortedLevels_mem book side lmin hlmin).1.1
  obtain ⟨_, ⟨rl, hrl, hrlp⟩⟩ := sortedLevels_mem book side lmax hlmax
  have hpmax1 : pmax ≤ 1 := hlmaxp ▸ (hb rl hrl lmax.price hrlp).2
  constructor
  · exact le_of_lt (lt_of_lt_of_le hpmin0 havg1)
  · exact le_trans havg2 hpmax1

/-- C3, witness: on a book with a single ask level `(0.5, 100)` and notional
`40`, the fill succeeds with 80 shares at average price `0.5`, which lies in
the consumed price range, and the `[0,1]` corollary holds. -/
theorem marketFill_avgPrice_bounds_witness :
    marketFill bookW3 .buy 40 = some ⟨1/2, 80, 40⟩ ∧
    (0 < (Fill.mk (1/2) 80 40).shares ∧
    (∃ pmin ∈ (fillWalk 40 (sortedLevels bookW3 .buy)).consumed,
     ∃ pmax ∈ (fillWalk 40 (sortedLevels bookW3 .buy)).consumed,
       (∀ p ∈ (fillWalk 40 (sortedLevels bookW3 .buy)).consumed,
         pmin ≤ p ∧ p ≤ pmax) ∧
       pmin ≤ (Fill.mk (1/2) 80 40).avgPrice ∧
       (Fill.mk (1/2) 80 40).avgPrice ≤ pmax) ∧
    ((∀ l ∈ bookW3.bids ++ bookW3.asks, ∀ p, l.price = some p → 0 ≤ p ∧ p ≤ 1) →
      0 ≤ (Fill.mk (1/2) 80 40).avgPrice ∧ (Fill.mk (1/2) 80 40).avgPrice ≤ 1)) :=
  have hsl : sortedLevels bookW3 .buy = [⟨1/2, 100⟩] := by
    simp only [sortedLevels, bookW3, List.filterMap_cons, List.filterMap_nil, toNumLevel]
    norm_num [List.insertionSort, List.orderedInsert]
  have h : marketFill bookW3 .buy 40 = some ⟨1/2, 80, 40⟩ := by
    simp only [marketFill, hsl]
    norm_num [fillWalk]
  ⟨h, marketFill_avgPrice_bounds bookW3 .buy 40 ⟨1/2, 80, 40⟩ h⟩

/-! ## Claim C4: insufficient depth yields the absent value -/

/-- C4: when the walk over the filtered best-price-first levels consumes less
than `targetNotional` minus the `1e-6` epsilon (equivalently, its accumulated
cost falls short of `notionalUsd - 1e-6`), `marketFill` returns `none` — the
Option-style absent value of the total function, not an exception. -/
theorem marketFill_insufficient_depth (book : Book) (side : Side)
    (notionalUsd : ℚ)
    (h : (fillWalk notionalUsd (sortedLevels book side)).cost <
      notionalUsd - 1 / 1000000) :
    marketFill book side notionalUsd = none := by
  have hcr := fillWalk_cost_remaining (sortedLevels book side) notionalUsd
  have hcond : (fillWalk notionalUsd (sortedLevels book side)).cost ≤ 0 ∨
      (fillWalk notionalUsd (sortedLevels book side)).shares ≤ 0 ∨
      1 / 1000000 < (fillWalk notionalUsd (sortedLevels book side)).remaining :=
    Or.inr (Or.inr (by linarith))
  simp only [marketFill]
  rw [if_pos hcond]

/-- C4, witness: on an empty book the walk consumes nothing, which falls short
of a notional of `1`, and `marketFill` returns `none`. -/
theorem marketFill_insufficient_depth_witness :
    (fillWalk 1 (sortedLevels ⟨[], []⟩ .buy)).cost < 1 - 1 / 1000000 ∧
    marketFill ⟨[], []⟩ .buy 1 = none :=
  have h : (fillWalk 1 (sortedLevels ⟨[], []⟩ .buy)).cost < 1 - 1 / 1000000 := by
    norm_num [fillWalk, sortedLevels, List.insertionSort]
  ⟨h, marketFill_insufficient_depth ⟨[], []⟩ .buy 1 h⟩

/-! ## Claim C10: non-positive notional yields the absent value -/

/-- C10: for every book — including one with ample valid depth — a zero or
negative target notional makes `marketFill` return `none`: the first level
absorbs the whole non-positive notional, so the accumulated cost is
non-positive and the guard reports the same absent value as insufficient
depth. -/
theorem marketFill_nonpos_notional (book : Book) (side : Side)
    (notionalUsd : ℚ) (h : notionalUsd ≤ 0) :
    marketFill book side notionalUsd = none := by
  cases hl : sortedLevels book side with
  | nil =>
    simp [marketFill, hl, fillWalk]
  | cons lvl rest =>
    have hp : 0 < lvl.price ∧ 0 < lvl.size :=
      (sortedLevels_mem book side lvl (hl ▸ List.mem_cons_self _ _)).1
    have husd : 0 < lvl.price * lvl.size := mul_pos hp.1 hp.2
    have hmin : min notionalUsd (lvl.price * lvl.size) = notionalUsd :=
      min_eq_left (le_of_lt (lt_of_le_of_lt h husd))
    have hbr : notionalUsd - min notionalUsd (lvl.price * lvl.size) ≤
        1 / 1000000000 := by
      rw [hmin]
      norm_num
    have hcond : (fillWalk notionalUsd (sortedLevels book side)).cost ≤ 0 ∨
        (fillWalk notionalUsd (sortedLevels book side)).shares ≤ 0 ∨
        1 / 1000000 < (fillWalk notionalUsd (sortedLevels book side)).remaining := by
      rw [hl, fillWalk_cons, if_pos hbr]
      refine Or.inl ?_
      show min notionalUsd (lvl.price * lvl.size) ≤ 0
      rw [hmin]
      exact h
    simp only [marketFill]
    rw [if_pos hcond]

/-- C10, witness: a book with ample depth at price `0.5` still yields `none`
at notional `0`. -/
theorem marketFill_nonpos_notional_witness :
    (0 : ℚ) ≤ 0 ∧ marketFill bookW3 .buy 0 = none :=
  ⟨le_refl 0, marketFill_nonpos_notional bookW3 .buy 0 (le_refl 0)⟩

/-! ## Scoring lemmas -/

theorem clamp01_mono {x y : ℝ} (h : x ≤ y) : clamp01 x ≤ clamp01 y :=
  max_le_max (le_refl 0) (min_le_min (le_refl 1) h)

theorem round_mono {x y : ℝ} (h : x ≤ y) : round x ≤ round y := by
  rw [round_eq, round_eq]
  exact Int.floor_le_floor (by linarith)

theorem roundClamp_range (x : ℝ) :
    0 ≤ round (max 0 (min 100 x)) ∧ round (max 0 (min 100 x)) ≤ 100 := by
  have h100 : round (100 : ℝ) = 100 := by
    rw [show (100 : ℝ) = ((100 : ℤ) : ℝ) by norm_num, round_intCast]
  constructor
  · rw [show (0 : ℤ) = round (0 : ℝ) by rw [round_zero]]
    exact round_mono (le_max_left _ _)
  · rw [show (100 : ℤ) = round (100 : ℝ) by rw [h100]]
    exact round_mono (max_le (by norm_num) (min_le_left _ _))

theorem roundClamp_mono {x y : ℝ} (h : x ≤ y) :
    round (max 0 (min 100 x)) ≤ round (max 0 (min 100 y)) :=
  round_mono (max_le_max (le_refl 0) (min_le_min (le_refl 100) h))

/-! ## Claim C5: score range -/

/-- C5: for all real inputs and optional slippages, the opportunity score is
an integer in `[0, 100]`: the weighted combination is clamped to `[0, 100]`
and rounded to the nearest integer, so the rounded value stays in range. -/
theorem opportunityScore_range (spread vol24h liq absMove1h : ℝ)
    (slipBuy slipSell : Option ℝ) :
    0 ≤ opportunityScore spread vol24h liq absMove1h slipBuy slipSell ∧
    opportunityScore spread vol24h liq absMove1h slipBuy slipSell ≤ 100 := by
  unfold opportunityScore
  exact roundClamp_range _

/-! ## Claim C6: score monotonicity -/

/-- C6: holding the other arguments fixed, the score is monotone
non-decreasing in 24h volume, liquidity and absolute move, and monotone
non-increasing in spread and in each slippage argument, for non-negative
inputs. -/
theorem opportunityScore_monotone
    (spread spread' vol24h vol24h' liq liq' absMove1h absMove1h' sb sb' ss ss' : ℝ) :
    (0 ≤ vol24h → vol24h ≤ vol24h' →
      opportunityScore spread vol24h liq absMove1h (some sb) (some ss) ≤
      opportunityScore spread vol24h' liq absMove1h (some sb) (some ss)) ∧
    (0 ≤ liq → liq ≤ liq' →
      opportunityScore spread vol24h liq absMove1h (some sb) (some ss) ≤
      opportunityScore spread vol24h liq' absMove1h (some sb) (some ss)) ∧
    (0 ≤ absMove1h → absMove1h ≤ absMove1h' →
      opportunityScore spread vol24h liq absMove1h (some sb) (some ss) ≤
      opportunityScore spread vol24h liq absMove1h' (some sb) (some ss)) ∧
    (0 ≤ spread → spread ≤ spread' →
      opportunityScore spread' vol24h liq absMove1h (some sb) (some ss) ≤
      opportunityScore spread vol24h liq absMove1h (some sb) (some ss)) ∧
    (0 ≤ sb → sb ≤ sb' →
      opportunityScore spread vol24h liq absMove1h (some sb') (some ss) ≤
      opportunityScore spread vol24h liq absMove1h (some sb) (some ss)) ∧
    (0 ≤ ss → ss ≤ ss' →
      opportunityScore spread vol24h liq absMove1h (some sb) (some ss') ≤
      opportunityScore spread vol24h liq absMove1h (some sb) (some ss)) := by
  refine ⟨?_, ?_, ?_, ?_, ?_, ?_⟩
  · intro h0 h1
    unfold opportunityScore
    apply roundClamp_mono
    have hv : clamp01 (Real.logb 10 (1 + vol24h) / 5) ≤
        clamp01 (Real.logb 10 (1 + vol24h') / 5) := by
      apply clamp01_mono
      have hlog := Real.logb_le_logb_of_le (by norm_num : (1:ℝ) < 10)
        (by linarith : (0:ℝ) < 1 + vol24h) (by linarith : 1 + vol24h ≤ 1 + vol24h')
      linarith
    simp only [Option.getD_some]
    linarith
  · intro h0 h1
    unfold opportunityScore
    apply roundClamp_mono
    have hl : clamp01 (Real.logb 10 (1 + liq) / 5) ≤
        clamp01 (Real.logb 10 (1 + liq') / 5) := by
      apply clamp01_mono
      have hlog := Real.logb_le_logb_of_le (by norm_num : (1:ℝ) < 10)
        (by linarith : (0:ℝ) < 1 + liq) (by linarith : 1 + liq ≤ 1 + liq')
      linarith
    simp only [Option.getD_some]
    linarith
  · intro h0 h1
    unfold opportunityScore
    apply roundClamp_mono
    have hm : clamp01 (absMove1h / (8 / 100)) ≤ clamp01 (absMove1h' / (8 / 100)) :=
      clamp01_mono (by gcongr)
    simp only [Option.getD_some]
    linarith
  · intro h0 h1
    unfold opportunityScore
    apply roundClamp_mono
    have hs : clamp01 (spread / (2 / 100)) ≤ clamp01 (spread' / (2 / 100)) :=
      clamp01_mono (by gcongr)
    simp only [Option.getD_some]
    linarith
  · intro h0 h1
    unfold opportunityScore
    apply roundClamp_mono
    have hs : clamp01 ((sb + ss) / (4 / 100)) ≤ clamp01 ((sb' + ss) / (4 / 100)) :=
      clamp01_mono (by gcongr)
    simp only [Option.getD_some]
    linarith
  · intro h0 h1
    unfold opportunityScore
    apply roundClamp_mono
    have hs : clamp01 ((sb + ss) / (4 / 100)) ≤ clamp01 ((sb + ss') / (4 / 100)) :=
      clamp01_mono (by gcongr)
    simp only [Option.getD_some]
    linarith

/-- C6, witness: at concrete non-negative inputs, raising the volume from 1 to
2 does not decrease the score. -/
theorem opportunityScore_monotone_witness :
    (0 : ℝ) ≤ 1 ∧ (1 : ℝ) ≤ 2 ∧
    opportunityScore (1/100) 1 5 (1/100) (some 0) (some 0) ≤
    opportunityScore (1/100) 2 5 (1/100) (some 0) (some 0) :=
  ⟨by norm_num, by norm_num,
   (opportunityScore_monotone (1/100) (1/100) 1 2 5 5 (1/100) (1/100) 0 0 0 0).1
     (by norm_num) (by norm_num)⟩

/-! ## Claim C8: eligibility filters before order-book I/O -/

/-- C8, counterexample: the live-monitoring variant's eligibility filter has
no end-time predicate.  The fixture market `mW` has an unparseable end date
(`Date.parse` not finite), yet it passes the live filter and the live scanner
issues order-book fetches for both of its tokens, contradicting the claim
that in both variants such a market is dropped before any order-book I/O. -/
theorem liveScan_no_end_window :
    mW.endDate = none ∧
    liveEligible 50000 10000 mW = true ∧
    liveFetchTokens 50000 10000 [mW] = ["tA", "tB"] := by
  have hl : liveEligible 50000 10000 mW = true := by
    norm_num [liveEligible, mW]
    decide
  refine ⟨rfl, hl, ?_⟩
  simp only [liveFetchTokens, liveCandidates, List.filter, hl]
  norm_num [mW]

/-- C8, amended: each scan variant applies its whole eligibility filter to
every candidate before any order-book fetch — in the single-shot variant this
includes the end-time-within-window predicate (an unparseable or
out-of-window end date is dropped before I/O), while the live-monitoring
variant's filter has no end-time predicate at all. -/
theorem candidates_pass_variant_filters
    (markets : List Market) (now endCutoffMs : ℤ) (minVol minLiq : ℚ)
    (m m' : Market)
    (hm : m ∈ mainCandidates markets now endCutoffMs minVol minLiq)
    (hm' : m' ∈ liveCandidates minVol minLiq markets) :
    mainEligible now endCutoffMs minVol minLiq m = true ∧
    (∃ e, m.endDate = some e ∧ now < e ∧ e < endCutoffMs) ∧
    liveEligible minVol minLiq m' = true := by
  have h1 : mainEligible now endCutoffMs minVol minLiq m = true :=
    List.of_mem_filter (List.take_subset _ _ hm)
  have h3 : liveEligible minVol minLiq m' = true :=
    List.of_mem_filter (List.take_subset _ _ hm')
  refine ⟨h1, ?_, h3⟩
  simp only [mainEligible, Bool.and_eq_true] at h1
  obtain ⟨_, hend⟩ := h1
  cases hed : m.endDate with
  | none => rw [hed] at hend; exact absurd hend (by simp)
  | some e =>
    rw [hed] at hend
    simp only [Bool.and_eq_true, decide_eq_true_eq] at hend
    exact ⟨e, rfl, hend.1, hend.2⟩

/-- C8, witness for the amended theorem: with the dated fixture market in the
single-shot candidate list and the undated one in the live candidate list,
both memberships certify their variant's filter, and the single-shot
candidate's end date lies inside the window `(0, 1000)`. -/
theorem candidates_pass_variant_filters_witness :
    mWdated ∈ mainCandidates [mWdated, mW] 0 1000 50000 10000 ∧
    mW ∈ liveCandidates 50000 10000 [mWdated, mW] ∧
    (mainEligible 0 1000 50000 10000 mWdated = true ∧
     (∃ e, mWdated.endDate = some e ∧ 0 < e ∧ e < 1000) ∧
     liveEligible 50000 10000 mW = true) :=
  have hl1 : liveEligible 50000 10000 mWdated = true := by
    norm_num [liveEligible, mWdated, mW]
    decide
  have hl2 : liveEligible 50000 10000 mW = true := by
    norm_num [liveEligible, mW]
    decide
  have hd1 : mainEligible 0 1000 50000 10000 mWdated = true := by
    norm_num [mainEligible, mWdated, mW]
  have hd2 : mainEligible 0 1000 50000 10000 mW = false := by
    norm_num [mainEligible, mW]
  have hm : mWdated ∈ mainCandidates [mWdated, mW] 0 1000 50000 10000 := by
    norm_num [mainCandidates, List.filter, hd1, hd2]
  have hm' : mW ∈ liveCandidates 50000 10000 [mWdated, mW] := by
    norm_num [liveCandidates, List.filter, hl1, hl2]
  ⟨hm, hm', candidates_pass_variant_filters [mWdated, mW] 0 1000 50000 10000
    mWdated mW hm hm'⟩

/-! ## Claim C7: snapshot updates for observed tokens -/

/-- C7, counterexample: in the single-shot scan, a token whose order book was
observed (fetched, with both a best bid and a best ask) does *not* get its
snapshot entry overwritten when the market is rejected by the spread filter:
on the fixture market, both books are observed, the chosen token's spread
(0.30) exceeds the 0.12 maximum, and the per-market processing produces no
snapshot write at all. -/
theorem mainScan_snapshot_skipped :
    bestBidAsk bookWA = (some (3/10), some (3/5)) ∧
    bestBidAsk bookWB = (some (1/5), some (9/10)) ∧
    (mainProcessMarket [] fetchW (12/100) 100 0 mW).2 = [] := by
  have hA : bestBidAsk bookWA = (some (3/10), some (3/5)) := by
    norm_num [bestBidAsk, bestLevelStep, bookWA]
  have hB : bestBidAsk bookWB = (some (1/5), some (9/10)) := by
    norm_num [bestBidAsk, bestLevelStep, bookWB]
  have hfA : fetchW ("tA") = some bookWA := rfl
  have hfB : fetchW ("tB") = some bookWB := rfl
  have hcands : mainTokenCandidates fetchW (mW.clobTokenIds.zip mW.outcomePrices) =
      [⟨0, "tA", 1/2, bookWA, 3/10, 3/5, 9/20, 3/10, 1/20⟩,
       ⟨1, "tB", 1/2, bookWB, 1/5, 9/10, 11/20, 7/10, 1/20⟩] := by
    simp only [mW, mainTokenCandidates, List.zip, List.zipWith, List.enum,
      List.enumFrom, List.filterMap, hfA, hfB, hA, hB]
    norm_num
  have hsorted : List.insertionSort
      (fun a b : MainTokenCand => a.err ≤ b.err)
      [⟨0, "tA", 1/2, bookWA, 3/10, 3/5, 9/20, 3/10, 1/20⟩,
       ⟨1, "tB", 1/2, bookWB, 1/5, 9/10, 11/20, 7/10, 1/20⟩] =
      [⟨0, "tA", 1/2, bookWA, 3/10, 3/5, 9/20, 3/10, 1/20⟩,
       ⟨1, "tB", 1/2, bookWB, 1/5, 9/10, 11/20, 7/10, 1/20⟩] := by
    norm_num [List.insertionSort, List.orderedInsert]
  refine ⟨hA, hB, ?_⟩
  have harity : ¬(mW.outcomes.length < 2 ∨ mW.outcomePrices.length < 2 ∨
      mW.clobTokenIds.length < 2) := by
    norm_num [mW]
  simp only [mainProcessMarket, if_neg harity, hcands, hsorted]
  norm_num

/-- C7, amended: in the live-monitoring variant, every token whose order book
was observed — fetched, and yielding both a best bid and a best ask — has a
snapshot update pushed with the new mid/bid/ask regardless of the market
being rejected later by the spread, minimum-move or entry-fill filters, and
when the run loop applies the updates to the store (with distinct token ids)
each token's entry is overwritten with the new values and timestamp.  In the
single-shot variant, only the chosen token of a market that passes the spread
and entry-fill gates is written. -/
theorem liveScan_updates_observed
    (snaps : SnapMap) (cfg : Cfg) (fetch : String → Option Book) (m : Market)
    (bookA bookB : Book) (bidA askA bidB askB : ℚ)
    (h2 : ¬ m.clobTokenIds.length < 2)
    (hAB : m.clobTokenIds.getD 0 "" ≠ m.clobTokenIds.getD 1 "")
    (hA : fetch (m.clobTokenIds.getD 0 "") = some bookA)
    (hB : fetch (m.clobTokenIds.getD 1 "") = some bookB)
    (hbA : bestBidAsk bookA = (some bidA, some askA))
    (hbB : bestBidAsk bookB = (some bidB, some askB)) :
    (liveProcessMarket snaps cfg fetch m).1 =
      [⟨m.clobTokenIds.getD 0 "", (bidA + askA) / 2, bidA, askA⟩,
       ⟨m.clobTokenIds.getD 1 "", (bidB + askB) / 2, bidB, askB⟩] ∧
    ∀ (now : ℤ) (store : SnapMap),
      (applyUpdates now store (liveProcessMarket snaps cfg fetch m).1).lookup
          (m.clobTokenIds.getD 0 "") =
        some ⟨(bidA + askA) / 2, bidA, askA, now⟩ ∧
      (applyUpdates now store (liveProcessMarket snaps cfg fetch m).1).lookup
          (m.clobTokenIds.getD 1 "") =
        some ⟨(bidB + askB) / 2, bidB, askB, now⟩ := by
  have h1 : (liveProcessMarket snaps cfg fetch m).1 =
      [⟨m.clobTokenIds.getD 0 "", (bidA + askA) / 2, bidA, askA⟩,
       ⟨m.clobTokenIds.getD 1 "", (bidB + askB) / 2, bidB, askB⟩] := by
    simp only [liveProcessMarket, hA, hB, hbA, hbB, if_neg h2]
  refine ⟨h1, ?_⟩
  intro now store
  have hAB' : m.clobTokenIds[0]?.getD ("") ≠ m.clobTokenIds[1]?.getD ("") := by
    simpa [List.getD] using hAB
  have hbeq : (m.clobTokenIds[0]?.getD ("") == m.clobTokenIds[1]?.getD ("")) = false :=
    beq_eq_false_iff_ne.mpr hAB'
  rw [h1]
  constructor
  · simp [applyUpdates, snapInsert, List.lookup, hbeq]
  · simp [applyUpdates, snapInsert, List.lookup]

/-- C7, witness for the amended theorem at the fixtures: both observed tokens
of the fixture market appear in the snapshot updates with their new quotes
(the market itself is spread-rejected), and applying the updates overwrites
both store entries. -/
theorem liveScan_updates_observed_witness :
    (liveProcessMarket [] defaultConfig fetchW mW).1 =
      [⟨"tA", (3/10 + 3/5) / 2, 3/10, 3/5⟩,
       ⟨"tB", (1/5 + 9/10) / 2, 1/5, 9/10⟩] ∧
    ∀ (now : ℤ) (store : SnapMap),
      (applyUpdates now store (liveProcessMarket [] defaultConfig fetchW mW).1).lookup
          ("tA") = some ⟨(3/10 + 3/5) / 2, 3/10, 3/5, now⟩ ∧
      (applyUpdates now store (liveProcessMarket [] defaultConfig fetchW mW).1).lookup
          ("tB") = some ⟨(1/5 + 9/10) / 2, 1/5, 9/10, now⟩ :=
  liveScan_updates_observed [] defaultConfig fetchW mW bookWA bookWB
    (3/10) (3/5) (1/5) (9/10)
    (by norm_num [mW]) (by simp [mW]) rfl rfl
    (by norm_num [bestBidAsk, bestLevelStep, bookWA])
    (by norm_num [bestBidAsk, bestLevelStep, bookWB])

/-! ## Claim C1: at most one open position -/

/-- C1: whenever the persisted state already holds an open position, a run
cycle only monitors it: the resulting open-position slot is either cleared
(the position exited) or still holds the *same* position with at most its
`lastMark` refreshed — no second position is ever constructed or stored.  A
new position is built only in the `none` branch of the cycle, so opening
while one is open is impossible by construction. -/
theorem openPosition_preserved (cfg : Cfg) (env : CycleEnv) (s : RunState)
    (p : Position) (h : s.openPosition = some p) :
    (runCycle cfg env s).1.openPosition = none ∨
    ∃ mark, (runCycle cfg env s).1.openPosition = some { p with lastMark := mark } := by
  simp only [runCycle, h]
  split
  · exact Or.inr ⟨p.lastMark, h⟩
  · split
    · split
      · exact Or.inr ⟨_, rfl⟩
      · exact Or.inl rfl
    · exact Or.inr ⟨p.lastMark, h⟩

/-- C1, witness: a concrete cycle whose book fetch failed leaves the fixture
position in place untouched. -/
theorem openPosition_preserved_witness :
    (runCycle defaultConfig envW sW).1.openPosition = none ∨
    ∃ mark, (runCycle defaultConfig envW sW).1.openPosition =
      some { posW with lastMark := mark } :=
  openPosition_preserved defaultConfig envW sW posW rfl

end PolymarketAlert
